import Mathlib

set_option maxHeartbeats 1000000

/-!
Shallow embedding of the Linguera server (server.js): the room store and its
socket handlers, the WebRTC signaling relay, the translation-orchestration
HTTP endpoint with its health gate, the dictionary post-processor, and the
dictionary CRUD routes.  Strings are modelled as Lean strings (lists of
characters); the regex operations used by the dictionary post-processor are
modelled directly as literal-string scanning functions with JavaScript's
word-character class and word-boundary semantics; JavaScript numbers that may
be NaN are modelled as `Option Int`; the file system and socket transport are
modelled as explicit effect lists returned by each handler.
-/

namespace Linguera

/-- JS word-character class (regex w): ASCII letters, digits, underscore. -/
def isWordChar (c : Char) : Bool :=
  (decide ('a' ≤ c) && decide (c ≤ 'z')) ||
  (decide ('A' ≤ c) && decide (c ≤ 'Z')) ||
  (decide ('0' ≤ c) && decide (c ≤ '9')) ||
  (c == '_')

/-- Case-insensitive match of `pat` against a prefix of `text` (the regex `i` flag,
restricted to the simple case fold of `Char.toLower`). -/
def matchesAt : List Char → List Char → Bool
  | [], _ => true
  | _ :: _, [] => false
  | p :: ps, t :: ts => (p.toLower == t.toLower) && matchesAt ps ts

/-- Case-sensitive substring containment, as `String.prototype.includes`. -/
def hasSubstring : List Char → List Char → Bool
  | [], pat => pat.isEmpty
  | hay@(_ :: t), pat => pat.isPrefixOf hay || hasSubstring t pat

/-- String-level wrapper for `hasSubstring`. -/
def hasSubstringS (hay pat : String) : Bool :=
  hasSubstring hay.data pat.data

/-- Wordishness of an optional character; positions outside the string count as non-word. -/
def wordish : Option Char → Bool
  | none => false
  | some c => isWordChar c

/-- Wordishness of the first character of a (possibly empty) suffix. -/
def headWordish : List Char → Bool
  | [] => false
  | c :: _ => isWordChar c

/-- A match of `pat` at the current position is a whole-word match for the regex
`\b pat \b` iff the pattern matches case-insensitively and the word-character
property flips at both ends (`prev` is the character just before the position). -/
def boundaryMatchAt (prev : Option Char) (pat text : List Char) : Bool :=
  matchesAt pat text &&
  (wordish prev != headWordish text) &&
  (wordish ((text.take pat.length).getLast?) != headWordish (text.drop pat.length))

/-- Scan for a whole-word match anywhere in the text: `boundaryRegex.test(processedText)`. -/
def testBoundary (pat : List Char) : Option Char → List Char → Bool
  | _, [] => false
  | prev, c :: rest => boundaryMatchAt prev pat (c :: rest) || testBoundary pat (some c) rest

/-- Worker for the whole-word replacement: a positive `skip` means the scanner
is inside the `pat.length` characters of a match already emitted (regex global
matching resumes after the end of each match, so no overlapping matches). -/
def replaceBoundaryAux (p0 : Char) (ps : List Char) (repl : List Char) :
    Nat → Option Char → List Char → List Char
  | 0, _, [] => []
  | 0, prev, c :: rest =>
    if boundaryMatchAt prev (p0 :: ps) (c :: rest) then
      repl ++ replaceBoundaryAux p0 ps repl ps.length (some c) rest
    else c :: replaceBoundaryAux p0 ps repl 0 (some c) rest
  | _ + 1, _, [] => []
  | skip + 1, _, c :: rest => replaceBoundaryAux p0 ps repl skip (some c) rest

/-- Global case-insensitive whole-word replacement,
`processedText.replace(new RegExp('\\b' + word + '\\b', 'gi'), englishWord)`:
matches are found left to right over the original text and do not overlap. -/
def replaceBoundary (p0 : Char) (ps : List Char) (repl : List Char)
    (text : List Char) : List Char :=
  replaceBoundaryAux p0 ps repl 0 none text

/-- Worker for the substring replacement, with the same skip discipline. -/
def replaceLooseAux (p0 : Char) (ps : List Char) (repl : List Char) :
    Nat → List Char → List Char
  | 0, [] => []
  | 0, c :: rest =>
    if matchesAt (p0 :: ps) (c :: rest) then
      repl ++ replaceLooseAux p0 ps repl ps.length rest
    else c :: replaceLooseAux p0 ps repl 0 rest
  | _ + 1, [] => []
  | skip + 1, _ :: rest => replaceLooseAux p0 ps repl skip rest

/-- Global case-insensitive substring replacement,
`processedText.replace(new RegExp(word, 'gi'), englishWord)`. -/
def replaceLoose (p0 : Char) (ps : List Char) (repl : List Char)
    (text : List Char) : List Char :=
  replaceLooseAux p0 ps repl 0 text

/-- JS `String.prototype.trim`, implemented directly on the character list. -/
def jsTrim (s : String) : String :=
  ⟨((s.data.dropWhile Char.isWhitespace).reverse.dropWhile Char.isWhitespace).reverse⟩

/-- JS `String.prototype.toLowerCase`, restricted to the simple case fold. -/
def toLowerS (s : String) : String :=
  ⟨s.data.map Char.toLower⟩

/-!
Dictionary post-processor (`applyWordReplacements` and the `excludedWords`
table).  A dictionary entry is a JSON object with string values: a flat
association list from property names (language codes, plus the canonical
`en` property) to strings.
-/

/-- A dictionary entry: a JSON object with string-valued properties;
`objGet e k` is the property access `e[k]`. -/
def DictEntry := List (String × String)

instance : DecidableEq DictEntry := by unfold DictEntry; infer_instance

/-- Property access `e[k]` on a dictionary entry (first binding wins). -/
def objGet (e : DictEntry) (k : String) : Option String :=
  (List.find? (fun p => p.1 == k) e).map (fun p => p.2)

/-- The filter of `applyWordReplacements`: the entry has a non-empty trimmed
localized form for the target language and a non-empty trimmed English form
(JS truthiness of `entry[targetLang]?.trim()` and `entry.en?.trim()`). -/
def validEntry (targetLang : String) (e : DictEntry) : Bool :=
  (match objGet e targetLang with
   | some s => !(jsTrim s == "")
   | none => false) &&
  (match objGet e "en" with
   | some s => !(jsTrim s == "")
   | none => false)

/-- Sort key of the comparator `b[targetLang].trim().length - a[targetLang].trim().length`. -/
def entryKey (targetLang : String) (e : DictEntry) : Nat :=
  (jsTrim ((objGet e targetLang).getD "")).length

/-- Stable insertion into a list already sorted by `entryKey` descending:
the new element goes before the first element whose key is not larger, so
among equal keys the original relative order is preserved. -/
def insertEntry (targetLang : String) (e : DictEntry) : List DictEntry → List DictEntry
  | [] => [e]
  | x :: xs =>
    if entryKey targetLang e < entryKey targetLang x then
      x :: insertEntry targetLang e xs
    else e :: x :: xs

/-- Stable sort by localized-form length descending, modelling the stable
`Array.prototype.sort` with the comparator above. -/
def sortEntriesDesc (targetLang : String) : List DictEntry → List DictEntry
  | [] => []
  | x :: xs => insertEntry targetLang x (sortEntriesDesc targetLang xs)

/-- The sorted entry list: valid entries in order of localized-form length
descending. -/
def sortedEntries (targetLang : String) (entries : List DictEntry) : List DictEntry :=
  sortEntriesDesc targetLang (entries.filter (validEntry targetLang))

/-- Processing of one entry: a whole-word case-insensitive replacement when a
whole-word match exists anywhere, otherwise a substring case-insensitive
replacement (the loose fallback). -/
def stepEntry (targetLang : String) (text : String) (e : DictEntry) : String :=
  let targetWord := jsTrim ((objGet e targetLang).getD "")
  let englishWord := jsTrim ((objGet e "en").getD "")
  match targetWord.data with
  | [] => text
  | p0 :: ps =>
    if testBoundary (p0 :: ps) none text.data then
      ⟨replaceBoundary p0 ps englishWord.data text.data⟩
    else
      ⟨replaceLoose p0 ps englishWord.data text.data⟩

/-- The dictionary post-processor `applyWordReplacements(text, targetLang)`:
filters the table to valid entries, sorts by localized-form length descending,
and folds the per-entry replacement over the text (for a non-string or falsy
`text` the input is returned unchanged; the model covers the falsy string case). -/
def applyWordReplacements (excludedWords : List DictEntry) (text : String)
    (targetLang : String) : String :=
  if text == "" then text
  else (sortedEntries targetLang excludedWords).foldl (stepEntry targetLang) text

/-!
Translation orchestrator: the `POST /api/translate` route with its input
validation, health gate over the Python microservice, backend call, dictionary
post-processing, optional accuracy scoring, logging, and failure
classification.  The external world (probe outcome, backend behaviour, clock)
is an explicit environment; the requests the route issues are returned as an
explicit call trace.
-/

/-- Server configuration (the `config` object), restricted to the fields the
modelled routes read. -/
structure ServerConfig where
  maxTranslationLength : Nat
  maxRoomParticipants : Nat
deriving DecidableEq

/-- Result of `validateInput`. -/
inductive ValidationResult
  | invalid (error : String)
  | valid (text : String)
deriving DecidableEq

/-- Input validation `validateInput(text, maxLength)`: requires a present,
truthy string (so the empty string hits the first guard), non-empty after
trimming, and trimmed length at most `maxLength`. -/
def validateInput (text : Option String) (maxLength : Nat) : ValidationResult :=
  match text with
  | none => .invalid "Text is required and must be a string"
  | some s =>
    if s == "" then .invalid "Text is required and must be a string"
    else
      let trimmed := jsTrim s
      if trimmed == "" then .invalid "Text cannot be empty"
      else if decide (maxLength < trimmed.length) then
        .invalid ("Text too long (max " ++ toString maxLength ++ " characters)")
      else .valid trimmed

/-- Worker for `splitWS`: JS `split(/\s+/)` semantics; `inWS` records whether
the scanner is inside a whitespace run (whose start emitted the pending word). -/
def splitWSAux : Bool → List Char → List Char → List (List Char)
  | _, acc, [] => [acc.reverse]
  | inWS, acc, c :: rest =>
    if c.isWhitespace then
      if inWS then splitWSAux true acc rest
      else acc.reverse :: splitWSAux true [] rest
    else splitWSAux false (c :: acc) rest

/-- JS `split(/\s+/)`: splits on maximal whitespace runs, producing an empty
leading or trailing field when the string starts or ends with whitespace. -/
def splitWS (s : String) : List (List Char) :=
  splitWSAux false [] s.data

/-- The bag-of-words accuracy of the route as an exact fraction: reference and
output are lowercased and whitespace-split, the reference words occurring in
the output are counted (with reference-side multiplicity), and the count is
divided by the larger of the two word counts.  The JS number is modelled as
the exact rational, kept as its defining unreduced numerator/denominator pair
so that the model stays executable. -/
def calcAccuracyPair (reference output : String) : Nat × Nat :=
  let refWords := splitWS (toLowerS reference)
  let outWords := splitWS (toLowerS output)
  let intersection := refWords.filter (fun word => outWords.contains word)
  (intersection.length, max refWords.length outWords.length)

/-- The accuracy score as a rational number: intersection size divided by the
larger of the two word counts. -/
def calcAccuracy (reference output : String) : ℚ :=
  ((calcAccuracyPair reference output).1 : ℚ) / ((calcAccuracyPair reference output).2 : ℚ)

/-- Arguments handed to `logTranslation` by the route (its destructured
parameter object). -/
structure LogArgs where
  source : String
  target : String
  input : String
  output : String
  durationMs : Nat
  accuracy : Option (Nat × Nat)
  roomId : String
deriving DecidableEq

/-- The `logEntry` object that `logTranslation` persists: note that it carries
no accuracy and no room id field (the room id only selects the log file). -/
structure LogEvent where
  timestamp : String
  source : String
  target : String
  input : String
  output : String
  durationMs : Nat
deriving DecidableEq

/-- External requests issued by the route: the on-demand health probe
(`GET /health`) and the translation call (`POST /translate`). -/
inductive ExtCall
  | healthProbe
  | translateReq (text sourceLang targetLang : String)
deriving DecidableEq

/-- Behaviour of the Python backend for the single translation call the route
makes: a successful response, a non-OK HTTP response with its status and
diagnostic detail, a timeout of the bounded request, or another transport
failure with its error message. -/
inductive BackendBehavior
  | ok (translatedText : String) (sentenceCount : Nat)
  | httpError (status : Nat) (detail : String)
  | timeout
  | fetchError (message : String)
deriving DecidableEq

/-- The environment of one route invocation: outcome of the on-demand health
probe (were it performed), backend behaviour, the current date in `YYYYMMDD`
form, the formatted timestamp, and the measured duration. -/
structure Env where
  probeResult : Bool
  backend : BackendBehavior
  dateStr : String
  timestamp : String
  durationMs : Nat
deriving DecidableEq

/-- Response body of the route. -/
inductive RespBody
  | translatedBody (translated : String)
  | errorBody (error : String)
deriving DecidableEq

/-- Everything observable about one invocation of the route: HTTP status and
body, the trace of external calls in order, the arguments passed to
`logTranslation` (if it was called), the log entries it appended (tagged with
the room id that names the per-room log file), and the final value of the
`pythonServiceHealthy` flag. -/
structure TranslateOutcome where
  status : Nat
  body : RespBody
  calls : List ExtCall
  logArgs : Option LogArgs
  logs : List (String × LogEvent)
  healthFlag : Bool
deriving DecidableEq

/-- The function `logTranslation`: returns without writing when the room id is
falsy; otherwise appends one `logEntry` (timestamp, languages, input, output,
duration — the accuracy argument is dropped). -/
def logTranslation (env : Env) (a : LogArgs) : List (String × LogEvent) :=
  if a.roomId == "" then []
  else [(a.roomId,
    { timestamp := env.timestamp, source := a.source, target := a.target,
      input := a.input, output := a.output, durationMs := a.durationMs })]

/-- JS `split('-')[0]`: the prefix before the first dash. -/
def headBeforeDash (s : String) : String :=
  ⟨s.data.takeWhile (fun c => !(c == '-'))⟩

/-- The catch block of the route: classification of a thrown error by its
message text — messages containing `timeout` give 504, then messages
containing `Translation failed` (every non-OK backend response is rethrown
with that prefix) give 400 with the message as detail, anything else 500. -/
def classifyError (msg : String) (calls : List ExtCall) (flag : Bool) :
    TranslateOutcome :=
  if hasSubstringS msg "timeout" then
    ⟨504, .errorBody "Translation timeout - request took too long", calls, none, [], flag⟩
  else if hasSubstringS msg "Translation failed" then
    ⟨400, .errorBody msg, calls, none, [], flag⟩
  else
    ⟨500, .errorBody "Translation service temporarily unavailable", calls, none, [], flag⟩

/-- A request to `POST /api/translate` (the destructured body with its
defaults; absent optional fields are `none`). -/
structure TranslateRequest where
  text : Option String
  source : String := "auto"
  target : String := "en"
  reference : Option String := none
  roomId : Option String := none
deriving DecidableEq

/-- The `POST /api/translate` route.  Control flow mirrors the handler:
validation (400), then the health gate — when the `pythonServiceHealthy` flag
is false an on-demand probe runs, and on a failed probe the route returns 503
without issuing the translation call; then the single backend call, dictionary
post-processing of its result, optional accuracy scoring, logging (with a
synthetic `general-YYYYMMDD` bucket when no room id is supplied), and the 200
response; thrown backend failures are classified by `classifyError`. -/
def translateHandler (cfg : ServerConfig) (dict : List DictEntry)
    (healthy : Bool) (env : Env) (req : TranslateRequest) : TranslateOutcome :=
  match validateInput req.text cfg.maxTranslationLength with
  | .invalid e => ⟨400, .errorBody e, [], none, [], healthy⟩
  | .valid trimmed =>
    let run : List ExtCall → TranslateOutcome := fun probeCalls =>
      let sl := headBeforeDash req.source
      let tl := headBeforeDash req.target
      let calls := probeCalls ++ [ExtCall.translateReq trimmed sl tl]
      match env.backend with
      | .ok outText _ =>
        let translatedText := applyWordReplacements dict outText tl
        let accuracy : Option (Nat × Nat) :=
          match req.reference with
          | some r => if r == "" then none else some (calcAccuracyPair r translatedText)
          | none => none
        let logRoomId :=
          match req.roomId with
          | some s => if s == "" then "general-" ++ env.dateStr else s
          | none => "general-" ++ env.dateStr
        let args : LogArgs :=
          { source := req.source, target := req.target,
            input := req.text.getD "", output := translatedText,
            durationMs := env.durationMs, accuracy := accuracy,
            roomId := logRoomId }
        ⟨200, .translatedBody translatedText, calls, some args,
          logTranslation env args, true⟩
      | .httpError _ detail => classifyError ("Translation failed: " ++ detail) calls true
      | .timeout => classifyError "network timeout at: /translate" calls true
      | .fetchError m => classifyError m calls true
    if healthy then run []
    else if env.probeResult then run [ExtCall.healthProbe]
    else
      ⟨503,
       .errorBody "Translation service unavailable - Python microservice is not responding",
       [ExtCall.healthProbe], none, [], false⟩

/-!
Dictionary CRUD: the `DELETE /api/dictionary/:index` route, including the JS
`parseInt` and the NaN-tolerant bounds check and `splice` semantics.
-/

/-- JS `parseInt(s)` in base 10: skips leading whitespace, accepts an optional
sign, and parses the longest leading digit run; yields NaN (modelled as
`none`) when no digit is found. -/
def parseIntJS (s : String) : Option Int :=
  let chars := s.data.dropWhile Char.isWhitespace
  let signDigits : Int × List Char :=
    match chars with
    | '-' :: t => (-1, t)
    | '+' :: t => (1, t)
    | t => (1, t)
  let digits := signDigits.2.takeWhile Char.isDigit
  if digits.isEmpty then none
  else some (signDigits.1 * (digits.foldl (fun acc c => 10 * acc + (c.toNat - 48)) 0 : Nat))

/-- JS `<` against a possibly-NaN number: any comparison with NaN is false. -/
def jsLtZero : Option Int → Bool
  | none => false
  | some i => decide (i < 0)

/-- JS `>=` against a possibly-NaN number: any comparison with NaN is false. -/
def jsGeLen (idx : Option Int) (len : Nat) : Bool :=
  match idx with
  | none => false
  | some i => decide ((len : Int) ≤ i)

/-- The start index actually used by `splice`: NaN coerces to 0, negative
indices count from the end clamped at 0, large indices clamp to the length. -/
def jsSpliceStart (len : Nat) (idx : Option Int) : Nat :=
  match idx with
  | none => 0
  | some i => if i < 0 then ((len : Int) + i).toNat else min i.toNat len

/-- Response of the delete route. -/
inductive DeleteResponse
  | okDel (wordCount : Nat)
  | notFound
deriving DecidableEq

/-- The `DELETE /api/dictionary/:index` route: parses the index parameter with
`parseInt`, rejects with 404 when `index < 0 || index >= length` holds, and
otherwise removes one entry at the splice start position and reports success
with the new word count. -/
def deleteDictionaryHandler (indexParam : String) (dict : List DictEntry) :
    DeleteResponse × List DictEntry :=
  let index := parseIntJS indexParam
  if jsLtZero index || jsGeLen index dict.length then (.notFound, dict)
  else
    let newDict := dict.eraseIdx (jsSpliceStart dict.length index)
    (.okDel newDict.length, newDict)

/-!
Room store and socket handlers.  The `rooms` and `transcripts` maps are
modelled as insertion-ordered association lists with `Map`-style get, set
(replace the existing binding in place or append) and delete; socket and file
side effects are returned as explicit effect lists.
-/

/-- Map lookup `m.get(k)` (first binding wins; the operations below keep keys
unique as a JS `Map` does). -/
def mapGet {α : Type} (m : List (String × α)) (k : String) : Option α :=
  (List.find? (fun p => p.1 == k) m).map (fun p => p.2)

/-- Map update `m.set(k, v)`: replaces the first binding of `k` in place, or
appends a new binding. -/
def mapSet {α : Type} : List (String × α) → String → α → List (String × α)
  | [], k, v => [(k, v)]
  | (k', v') :: rest, k, v =>
    if k' == k then (k, v) :: rest else (k', v') :: mapSet rest k v

/-- Map removal `m.delete(k)`. -/
def mapDelete {α : Type} (m : List (String × α)) (k : String) : List (String × α) :=
  m.filter (fun p => !(p.1 == k))

/-- A room: ordered participant identities, visibility, optional language tag
(rooms created implicitly on first join carry no language). -/
structure Room where
  participants : List String
  isPublic : Bool
  lang : Option String
deriving DecidableEq

/-- Socket-side server state: the `rooms` map and the per-room transcript
buffers (buffered events are kept abstract as opaque rendered entries). -/
structure SocketState where
  rooms : List (String × Room)
  transcripts : List (String × List String)
deriving DecidableEq

/-- Options of the `join` event (`opts.isCreator`, `opts.isPublic`). -/
structure JoinOpts where
  isCreator : Bool := false
  isPublic : Option Bool := none
deriving DecidableEq

/-- Observable side effects of a socket handler: an emit to the handling
socket itself, an emit to one socket id, a room-scoped emit
(`socket.to(roomId)`, delivered to the sockets in the room except the sender),
the `active-meetings` broadcast, and a transcript flush to durable storage. -/
inductive Effect
  | emitSelf (event arg : String)
  | emitToSock (sid event arg : String)
  | emitToRoom (roomId sender event : String)
  | broadcastMeetings
  | flushTranscript (roomId : String) (entries : List String)
deriving DecidableEq

/-- The `createRoom` handler: rejects a falsy or duplicate room id, otherwise
registers an empty public room with the given language tag (result payloads
abbreviated to tags). -/
def createRoomHandler (st : SocketState) (roomId : String) (lang : String) :
    SocketState × List Effect :=
  if roomId == "" then (st, [.emitSelf "createRoomResult" "invalid"])
  else
    match mapGet st.rooms roomId with
    | some _ => (st, [.emitSelf "createRoomResult" "exists"])
    | none =>
      ({ st with rooms := mapSet st.rooms roomId ⟨[], true, some lang⟩ },
       [.emitSelf "createRoomResult" "ok"])

/-- The `join` handler: invalid id → error; absent room → implicit creation
with the joiner as sole participant when `isCreator` (public unless explicitly
private), else `no-room`; present room at capacity → `full` without mutation;
otherwise the connection is appended, `created` or `joined` (plus the
`user-joined` signal to the first participant) is emitted by count, and the
active-meetings snapshot is rebroadcast. -/
def joinHandler (cap : Nat) (st : SocketState) (sockId roomId : String)
    (opts : JoinOpts) : SocketState × List Effect :=
  if roomId == "" then (st, [.emitSelf "error" "Invalid roomId"])
  else
    match mapGet st.rooms roomId with
    | none =>
      if opts.isCreator then
        let room : Room :=
          ⟨[sockId], (match opts.isPublic with | some false => false | _ => true), none⟩
        ({ st with rooms := mapSet st.rooms roomId room },
         [.emitSelf "created" roomId])
      else (st, [.emitSelf "no-room" roomId])
    | some room =>
      if decide (cap ≤ room.participants.length) then
        (st, [.emitSelf "full" roomId])
      else
        let room' := { room with participants := room.participants ++ [sockId] }
        let st' := { st with rooms := mapSet st.rooms roomId room' }
        let notifications :=
          if room'.participants.length == 1 then [Effect.emitSelf "created" roomId]
          else if room'.participants.length == 2 then
            [Effect.emitSelf "joined" roomId,
             Effect.emitToSock (room'.participants.headD "") "user-joined" ""]
          else []
        (st', notifications ++ [Effect.broadcastMeetings])

/-- The relay lookup `forwardToOther`: the first participant of the room whose
identity differs from the sender, if the room exists. -/
def forwardToOther (rooms : List (String × Room)) (roomId senderId : String) :
    Option String :=
  match mapGet rooms roomId with
  | none => none
  | some room => room.participants.find? (fun id => !(id == senderId))

/-- The three WebRTC signaling payload kinds. -/
inductive SignalKind
  | offer
  | answer
  | iceCandidate
deriving DecidableEq

/-- The event name each signaling payload is relayed under (the inbound name). -/
def signalEventName : SignalKind → String
  | .offer => "offer"
  | .answer => "answer"
  | .iceCandidate => "ice-candidate"

/-- The `offer`/`answer`/`ice-candidate` handlers: stateless forwarding of the
payload to the other participant under the same event name; a silent no-op
when the room is absent or holds no other participant. -/
def signalHandler (st : SocketState) (sockId : String) (kind : SignalKind)
    (payload roomId : String) : SocketState × List Effect :=
  (st,
   match forwardToOther st.rooms roomId sockId with
   | some other => [Effect.emitToSock other (signalEventName kind) payload]
   | none => [])

/-- The effect of `saveTranscript`: flushes the room's buffer to a transcript
file unless the buffer is absent or empty. -/
def saveTranscriptEff (transcripts : List (String × List String))
    (roomId : String) : List Effect :=
  match mapGet transcripts roomId with
  | none => []
  | some entries => if entries.isEmpty then [] else [.flushTranscript roomId entries]

/-- The function `handleLeave`: no-op when the room is absent; otherwise the
connection is filtered out of the participants, `user-disconnected` is emitted
to the room, and when the room became empty its transcript is flushed and room
and buffer are deleted. -/
def handleLeave (st : SocketState) (sockId roomId : String) :
    SocketState × List Effect :=
  match mapGet st.rooms roomId with
  | none => (st, [])
  | some room =>
    let parts := room.participants.filter (fun id => !(id == sockId))
    let room' := { room with participants := parts }
    let rooms1 := mapSet st.rooms roomId room'
    let eff := [Effect.emitToRoom roomId sockId "user-disconnected"]
    if parts.isEmpty then
      (⟨mapDelete rooms1 roomId, mapDelete st.transcripts roomId⟩,
       eff ++ saveTranscriptEff st.transcripts roomId)
    else ({ st with rooms := rooms1 }, eff)

/-- The `leave` socket handler: runs `handleLeave`, then deletes the room and
its transcript when the room is now absent or empty, and rebroadcasts the
active-meetings snapshot. -/
def leaveHandler (st : SocketState) (sockId roomId : String) :
    SocketState × List Effect :=
  let r1 := handleLeave st sockId roomId
  let st1 := r1.1
  let st2 :=
    match mapGet st1.rooms roomId with
    | none => (⟨mapDelete st1.rooms roomId, mapDelete st1.transcripts roomId⟩ : SocketState)
    | some room =>
      if room.participants.isEmpty then
        ⟨mapDelete st1.rooms roomId, mapDelete st1.transcripts roomId⟩
      else st1
  (st2, r1.2 ++ [Effect.broadcastMeetings])

/-- The socket states reachable from server start-up through the room-mutating
handlers (`createRoom`, `join`, `leave`, and `handleLeave` as run by
`disconnecting`); the transcript-only handlers may change the transcript
buffers arbitrarily but never touch the rooms map. -/
inductive Reachable (cap : Nat) : SocketState → Prop
  | init : Reachable cap ⟨[], []⟩
  | create (st : SocketState) (roomId lang : String) :
      Reachable cap st → Reachable cap (createRoomHandler st roomId lang).1
  | join (st : SocketState) (sockId roomId : String) (opts : JoinOpts) :
      Reachable cap st → Reachable cap (joinHandler cap st sockId roomId opts).1
  | leave (st : SocketState) (sockId roomId : String) :
      Reachable cap st → Reachable cap (leaveHandler st sockId roomId).1
  | disconnectLeave (st : SocketState) (sockId roomId : String) :
      Reachable cap st → Reachable cap (handleLeave st sockId roomId).1
  | transcriptOp (rooms : List (String × Room)) (ts ts' : List (String × List String)) :
      Reachable cap ⟨rooms, ts⟩ → Reachable cap ⟨rooms, ts'⟩

/-!
Helper lemmas about the association-list map operations.
-/

theorem mapGet_nil {α : Type} (k : String) : mapGet ([] : List (String × α)) k = none := rfl

theorem mapGet_cons {α : Type} (k' : String) (v' : α) (rest : List (String × α)) (k : String) :
    mapGet ((k', v') :: rest) k = if k' = k then some v' else mapGet rest k := by
  by_cases h : k' = k
  · simp [mapGet, List.find?, h]
  · have hb : (k' == k) = false := by simpa using h
    simp [mapGet, List.find?, hb, h]

theorem mapSet_cons {α : Type} (k' : String) (v' : α) (rest : List (String × α))
    (k : String) (v : α) :
    mapSet ((k', v') :: rest) k v =
      if k' = k then (k, v) :: rest else (k', v') :: mapSet rest k v := by
  by_cases h : k' = k <;> simp [mapSet, h]

theorem mapDelete_nil {α : Type} (k : String) : mapDelete ([] : List (String × α)) k = [] := rfl

theorem mapDelete_cons {α : Type} (k' : String) (v' : α) (rest : List (String × α)) (k : String) :
    mapDelete ((k', v') :: rest) k =
      if k' = k then mapDelete rest k else (k', v') :: mapDelete rest k := by
  by_cases h : k' = k <;> simp [mapDelete, List.filter_cons, h]

theorem mapGet_mapSet_self {α : Type} (m : List (String × α)) (k : String) (v : α) :
    mapGet (mapSet m k v) k = some v := by
  induction m with
  | nil => simp [mapSet, mapGet_cons]
  | cons p rest ih =>
    obtain ⟨k', v'⟩ := p
    by_cases h : k' = k
    · simp [mapSet_cons, h, mapGet_cons]
    · simp [mapSet_cons, h, mapGet_cons, ih]

theorem mapSet_of_mapGet_eq {α : Type} {m : List (String × α)} {k : String} {v : α}
    (h : mapGet m k = some v) : mapSet m k v = m := by
  induction m with
  | nil => simp [mapGet_nil] at h
  | cons p rest ih =>
    obtain ⟨k', v'⟩ := p
    by_cases hk : k' = k
    · rw [mapGet_cons, if_pos hk] at h
      obtain rfl : v' = v := by simpa using h
      rw [mapSet_cons, if_pos hk, hk]
    · rw [mapGet_cons, if_neg hk] at h
      rw [mapSet_cons, if_neg hk, ih h]

theorem mapGet_none_iff {α : Type} (m : List (String × α)) (k : String) :
    mapGet m k = none ↔ ∀ p ∈ m, p.1 ≠ k := by
  induction m with
  | nil => simp [mapGet_nil]
  | cons p rest ih =>
    obtain ⟨k', v'⟩ := p
    by_cases hk : k' = k
    · subst hk; simp [mapGet_cons]
    · simp [mapGet_cons, hk, ih]

theorem mapDelete_of_mapGet_none {α : Type} {m : List (String × α)} {k : String}
    (h : mapGet m k = none) : mapDelete m k = m := by
  rw [mapGet_none_iff] at h
  induction m with
  | nil => rfl
  | cons p rest ih =>
    obtain ⟨k', v'⟩ := p
    have h1 : k' ≠ k := by simpa using h (k', v') (by simp)
    rw [mapDelete_cons, if_neg h1, ih (fun q hq => h q (by simp [hq]))]

theorem mapGet_mapDelete_self {α : Type} (m : List (String × α)) (k : String) :
    mapGet (mapDelete m k) k = none := by
  rw [mapGet_none_iff]
  intro p hp
  have := List.mem_filter.mp hp
  simpa using this.2

theorem mapDelete_mapDelete {α : Type} (m : List (String × α)) (k : String) :
    mapDelete (mapDelete m k) k = mapDelete m k :=
  mapDelete_of_mapGet_none (mapGet_mapDelete_self m k)

theorem mapDelete_mapSet {α : Type} (m : List (String × α)) (k : String) (v : α) :
    mapDelete (mapSet m k v) k = mapDelete m k := by
  induction m with
  | nil => simp [mapSet, mapDelete_cons, mapDelete_nil]
  | cons p rest ih =>
    obtain ⟨k', v'⟩ := p
    by_cases hk : k' = k
    · simp [mapSet_cons, hk, mapDelete_cons]
    · simp [mapSet_cons, hk, mapDelete_cons, ih]

theorem mem_mapSet {α : Type} {m : List (String × α)} {k : String} {v : α}
    {p : String × α} (h : p ∈ mapSet m k v) : p = (k, v) ∨ p ∈ m := by
  induction m with
  | nil => simpa [mapSet] using h
  | cons q rest ih =>
    obtain ⟨k', v'⟩ := q
    by_cases hk : k' = k
    · rw [mapSet_cons, if_pos hk] at h
      rcases List.mem_cons.mp h with h | h
      · exact Or.inl h
      · exact Or.inr (List.mem_cons_of_mem _ h)
    · rw [mapSet_cons, if_neg hk] at h
      rcases List.mem_cons.mp h with h | h
      · exact Or.inr (by simp [h])
      · rcases ih h with h | h
        · exact Or.inl h
        · exact Or.inr (List.mem_cons_of_mem _ h)

theorem mem_mapDelete {α : Type} {m : List (String × α)} {k : String}
    {p : String × α} (h : p ∈ mapDelete m k) : p ∈ m :=
  (List.mem_filter.mp h).1

theorem mapGet_eq_some_mem {α : Type} {m : List (String × α)} {k : String} {v : α}
    (h : mapGet m k = some v) : (k, v) ∈ m := by
  induction m with
  | nil => simp [mapGet_nil] at h
  | cons p rest ih =>
    obtain ⟨k', v'⟩ := p
    by_cases hk : k' = k
    · rw [mapGet_cons, if_pos hk] at h
      obtain rfl : v' = v := by simpa using h
      simp [hk]
    · rw [mapGet_cons, if_neg hk] at h
      exact List.mem_cons_of_mem _ (ih h)

theorem filter_idem {α : Type} (p : α → Bool) (l : List α) :
    (l.filter p).filter p = l.filter p := by
  induction l with
  | nil => rfl
  | cons x xs ih =>
    by_cases h : p x
    · simp [List.filter_cons, h, ih]
    · simp [List.filter_cons, h, ih]

/-!
Claim theorems.
-/

/-- C10: for every dictionary delete request whose index parameter does not
parse as a number (`parseInt` yields NaN), the bounds check
`index < 0 || index >= length` fails to reject it (NaN comparisons are
false), so on a non-empty dictionary the first entry is removed (`splice`
coerces NaN to 0) and a success response is returned instead of a 404. -/
theorem dictionary_delete_nan_c10 (indexParam : String) (dict : List DictEntry)
    (hnan : parseIntJS indexParam = none) (hne : dict ≠ []) :
    deleteDictionaryHandler indexParam dict = (.okDel (dict.length - 1), dict.tail) ∧
    (deleteDictionaryHandler indexParam dict).1 ≠ DeleteResponse.notFound := by
  unfold deleteDictionaryHandler
  rw [hnan]
  cases dict with
  | nil => exact absurd rfl hne
  | cons x xs => simp [jsLtZero, jsGeLen, jsSpliceStart, List.eraseIdx]

/-- Witness for C10 at a concrete non-numeric index parameter and a one-entry
dictionary. -/
theorem c10_witness :
    deleteDictionaryHandler "abc" [[("en", "demo")]] = (.okDel 0, []) ∧
    (deleteDictionaryHandler "abc" [[("en", "demo")]]).1 ≠ DeleteResponse.notFound :=
  dictionary_delete_nan_c10 "abc" [[("en", "demo")]] (by decide) (by decide)

/-- C8: for every translate call whose input text is empty after trimming or
whose trimmed length exceeds the configured maximum, the route answers 400
and issues no external request of any kind (validation runs before the health
gate, so not even the health probe is sent). -/
theorem translate_validation_c8 (cfg : ServerConfig) (dict : List DictEntry)
    (healthy : Bool) (env : Env) (req : TranslateRequest) (t : String)
    (ht : req.text = some t)
    (hbad : jsTrim t = "" ∨ cfg.maxTranslationLength < (jsTrim t).length) :
    (translateHandler cfg dict healthy env req).status = 400 ∧
    (translateHandler cfg dict healthy env req).calls = [] := by
  unfold translateHandler validateInput
  rw [ht]
  by_cases h0 : t = ""
  · simp [h0]
  · rcases hbad with h | h
    · simp [h0, h]
    · have hne : ¬ jsTrim t = "" := by
        intro he
        rw [he] at h
        simp at h
      simp [h0, hne, h]

/-- Witness for C8 at a concrete over-long input (maximum 3, trimmed length 5). -/
theorem c8_witness :
    (translateHandler ⟨3, 2⟩ [] true ⟨true, .ok "x" 1, "d", "ts", 0⟩
       ⟨some "hello", "en", "hi", none, none⟩).status = 400 ∧
    (translateHandler ⟨3, 2⟩ [] true ⟨true, .ok "x" 1, "d", "ts", 0⟩
       ⟨some "hello", "en", "hi", none, none⟩).calls = [] :=
  translate_validation_c8 ⟨3, 2⟩ [] true ⟨true, .ok "x" 1, "d", "ts", 0⟩
    ⟨some "hello", "en", "hi", none, none⟩ "hello" rfl (by right; decide)

/-- C2: for every translate call with valid input attempted while the backend
health flag is false, if the on-demand health probe also fails the route
answers 503 and the call trace contains no `/translate` request. -/
theorem translate_health_gate_c2 (cfg : ServerConfig) (dict : List DictEntry)
    (env : Env) (req : TranslateRequest) (trimmed : String)
    (hval : validateInput req.text cfg.maxTranslationLength = .valid trimmed)
    (hprobe : env.probeResult = false) :
    (translateHandler cfg dict false env req).status = 503 ∧
    ∀ t s l, ExtCall.translateReq t s l ∉ (translateHandler cfg dict false env req).calls := by
  unfold translateHandler
  rw [hval, hprobe]
  simp

/-- Witness for C2 at a concrete valid request against a dead backend. -/
theorem c2_witness :
    (translateHandler ⟨5000, 2⟩ [] false ⟨false, .ok "x" 1, "d", "ts", 0⟩
       ⟨some "hi", "en", "hi", none, none⟩).status = 503 ∧
    ExtCall.translateReq "hi" "en" "hi" ∉
      (translateHandler ⟨5000, 2⟩ [] false ⟨false, .ok "x" 1, "d", "ts", 0⟩
        ⟨some "hi", "en", "hi", none, none⟩).calls :=
  have h := translate_health_gate_c2 ⟨5000, 2⟩ [] ⟨false, .ok "x" 1, "d", "ts", 0⟩
    ⟨some "hi", "en", "hi", none, none⟩ "hi" (by decide) rfl
  ⟨h.1, h.2 "hi" "en" "hi"⟩

/-- C4: the relay of an offer, answer or ice-candidate payload leaves the
state unchanged; when a recipient is found it is a participant of the room
other than the sender and receives exactly the payload under the same event
kind; when the room is absent or every participant is the sender, the relay
silently emits nothing. -/
theorem signaling_relay_c4 (st : SocketState) (sockId : String)
    (kind : SignalKind) (payload roomId : String) :
    (signalHandler st sockId kind payload roomId).1 = st ∧
    (∀ other, forwardToOther st.rooms roomId sockId = some other →
      (signalHandler st sockId kind payload roomId).2 =
        [Effect.emitToSock other (signalEventName kind) payload] ∧
      ∃ room, mapGet st.rooms roomId = some room ∧
        other ∈ room.participants ∧ other ≠ sockId) ∧
    ((∀ room, mapGet st.rooms roomId = some room → ∀ p ∈ room.participants, p = sockId) →
      (signalHandler st sockId kind payload roomId).2 = []) := by
  refine ⟨rfl, ?_, ?_⟩
  · intro other h
    constructor
    · simp [signalHandler, h]
    · unfold forwardToOther at h
      cases hget : mapGet st.rooms roomId with
      | none => rw [hget] at h; simp at h
      | some room =>
        rw [hget] at h
        refine ⟨room, rfl, List.mem_of_find?_eq_some h, ?_⟩
        have := List.find?_some h
        simpa using this
  · intro hall
    unfold signalHandler forwardToOther
    cases hget : mapGet st.rooms roomId with
    | none => simp
    | some room =>
      have hnone : room.participants.find? (fun id => !(id == sockId)) = none := by
        rw [List.find?_eq_none]
        intro x hx
        simp [hall room hget x hx]
      simp [hnone]

/-- Witness for C4 at a concrete two-participant room. -/
theorem c4_witness :
    (signalHandler ⟨[("r", ⟨["a", "b"], true, none⟩)], []⟩ "a" .offer "sdp" "r").2 =
      [Effect.emitToSock "b" "offer" "sdp"] :=
  ((signaling_relay_c4 ⟨[("r", ⟨["a", "b"], true, none⟩)], []⟩ "a" .offer "sdp" "r").2.1
    "b" (by decide)).1

/-- The concrete two-participant state used to refute the idempotence of
`leave` on its notification effects. -/
def stAB : SocketState := ⟨[("r", ⟨["a", "b"], true, none⟩)], []⟩

/-- C7 counterexample: after connection `a` has already left room `r`
(leaving `b` behind), running the same `leave` again emits a second
`user-disconnected` to the room — the leaving socket never leaves the
socket.io room, so the remaining participant receives a duplicate departure
notification; calling `leave` twice is therefore observably different from
calling it once. -/
theorem c7_counterexample :
    (leaveHandler stAB "a" "r").2 =
      [Effect.emitToRoom "r" "a" "user-disconnected", Effect.broadcastMeetings] ∧
    (leaveHandler (leaveHandler stAB "a" "r").1 "a" "r").2 =
      [Effect.emitToRoom "r" "a" "user-disconnected", Effect.broadcastMeetings] := by
  decide

/-- The state reached by the `leave` socket handler, in closed form. -/
theorem leaveHandler_state (st : SocketState) (sockId roomId : String) :
    (leaveHandler st sockId roomId).1 =
      match mapGet st.rooms roomId with
      | none => ⟨st.rooms, mapDelete st.transcripts roomId⟩
      | some room =>
        let parts := room.participants.filter (fun id => !(id == sockId))
        if parts.isEmpty then
          ⟨mapDelete st.rooms roomId, mapDelete st.transcripts roomId⟩
        else ⟨mapSet st.rooms roomId { room with participants := parts }, st.transcripts⟩ := by
  cases hget : mapGet st.rooms roomId with
  | none =>
    simp only [leaveHandler, handleLeave, hget]
    rw [mapDelete_of_mapGet_none hget]
  | some room =>
    by_cases hparts : (room.participants.filter (fun id => !(id == sockId))).isEmpty
    · simp only [leaveHandler, handleLeave, hget, hparts, if_pos rfl, if_true]
      rw [mapDelete_mapSet]
      simp [mapGet_mapDelete_self, mapDelete_mapDelete, hparts]
    · simp only [leaveHandler, handleLeave, hget, hparts, if_false, Bool.false_eq_true]
      simp only [mapGet_mapSet_self]
      simp [hparts]

/-- C7 (amended): `leave` is idempotent on the server state — a second
identical call leaves rooms, deletions and transcript buffers exactly as the
first call did (the non-idempotent part is the notification stream, refuted
separately). -/
theorem leave_idempotent_state_c7 (st : SocketState) (sockId roomId : String) :
    (leaveHandler (leaveHandler st sockId roomId).1 sockId roomId).1 =
      (leaveHandler st sockId roomId).1 := by
  rw [leaveHandler_state st sockId roomId]
  cases hget : mapGet st.rooms roomId with
  | none =>
    rw [leaveHandler_state]
    simp only [hget]
    rw [mapDelete_mapDelete]
  | some room =>
    by_cases hparts : (room.participants.filter (fun id => !(id == sockId))).isEmpty
    · simp only [hparts, if_true]
      rw [leaveHandler_state]
      simp only [mapGet_mapDelete_self, mapDelete_mapDelete]
    · simp only [hparts, if_false, Bool.false_eq_true]
      rw [leaveHandler_state]
      simp only [mapGet_mapSet_self]
      have hfil := filter_idem (fun id => !(id == sockId)) room.participants
      simp only [hfil, hparts, if_false, Bool.false_eq_true]
      obtain ⟨ps, pub, lg⟩ := room
      simp only []
      rw [mapSet_of_mapGet_eq (mapGet_mapSet_self st.rooms roomId _)]

/-- The default configuration (5000-character limit, two-participant rooms). -/
def cfgDefault : ServerConfig := ⟨5000, 2⟩

/-- An environment whose backend answers the translate call with a non-OK
HTTP response carrying diagnostic detail. -/
def envBoom : Env := ⟨true, .httpError 500 "boom", "20261011", "ts", 10⟩

/-- A plain valid request owned by room `room42`. -/
def reqHello : TranslateRequest := ⟨some "hello", "en", "hi", none, some "room42"⟩

/-- C5 counterexample: a failing translate call (valid input, healthy flag,
backend rejects) produces no log entry at all — `logTranslation` is only
reached on the success path, so the claim that every call, success or
failure, is logged is false. -/
theorem c5_counterexample :
    (translateHandler cfgDefault [] true envBoom reqHello).status = 400 ∧
    (translateHandler cfgDefault [] true envBoom reqHello).logs = [] ∧
    (translateHandler cfgDefault [] true envBoom reqHello).logArgs = none := by
  decide

/-- A synthetic daily bucket id is never the empty string. -/
theorem general_bucket_ne_empty (d : String) : ("general-" ++ d) ≠ "" := by
  intro h
  have hd := congrArg String.data h
  rw [String.data_append] at hd
  exact absurd (List.append_eq_nil.mp hd).1 (by decide)

/-- C5 (amended): every successful translate call produces exactly one log
entry recording source and target language, raw input text, post-dictionary
output text and duration, attributed to the supplied room id or — when the
caller supplies no (or an empty) room id — to the synthetic daily bucket
`general-YYYYMMDD`; failing calls produce no log entry (refuted part of the
original claim, shown in the counterexample). -/
theorem translate_logging_c5 (cfg : ServerConfig) (dict : List DictEntry)
    (healthy : Bool) (env : Env) (req : TranslateRequest)
    (trimmed outText : String) (n : Nat)
    (hval : validateInput req.text cfg.maxTranslationLength = .valid trimmed)
    (hok : env.backend = .ok outText n)
    (hhealth : healthy = true ∨ env.probeResult = true) :
    (translateHandler cfg dict healthy env req).status = 200 ∧
    (translateHandler cfg dict healthy env req).logs =
      [((match req.roomId with
         | some s => if s == "" then "general-" ++ env.dateStr else s
         | none => "general-" ++ env.dateStr),
        { timestamp := env.timestamp, source := req.source, target := req.target,
          input := req.text.getD "",
          output := applyWordReplacements dict outText (headBeforeDash req.target),
          durationMs := env.durationMs })] := by
  have hrid : (match req.roomId with
      | some s => if s == "" then "general-" ++ env.dateStr else s
      | none => "general-" ++ env.dateStr) ≠ "" := by
    cases req.roomId with
    | none => exact general_bucket_ne_empty env.dateStr
    | some s =>
      by_cases hs : s = ""
      · simpa [hs] using general_bucket_ne_empty env.dateStr
      · simp [hs]
  unfold translateHandler
  rw [hval, hok]
  have hbranch : (if healthy then true else env.probeResult) = true := by
    rcases hhealth with h | h <;> simp [h]
  cases healthy with
  | true =>
    simp only [if_true]
    refine ⟨trivial, ?_⟩
    simp only [logTranslation]
    rw [if_neg (by simpa using hrid)]
  | false =>
    have hp : env.probeResult = true := by simpa using hbranch
    simp only [if_false, hp, if_true, Bool.false_eq_true]
    refine ⟨trivial, ?_⟩
    simp only [logTranslation]
    rw [if_neg (by simpa using hrid)]

/-- Witness for C5 at a concrete successful call with no room id: the single
log entry lands in the synthetic daily bucket. -/
theorem c5_witness :
    (translateHandler cfgDefault []
        true ⟨true, .ok "namaste" 1, "20261011", "ts", 12⟩
        ⟨some "hello", "en", "hi", none, none⟩).status = 200 ∧
    (translateHandler cfgDefault []
        true ⟨true, .ok "namaste" 1, "20261011", "ts", 12⟩
        ⟨some "hello", "en", "hi", none, none⟩).logs =
      [("general-20261011",
        { timestamp := "ts", source := "en", target := "hi", input := "hello",
          output := "namaste", durationMs := 12 })] := by
  have h := translate_logging_c5 cfgDefault [] true
    ⟨true, .ok "namaste" 1, "20261011", "ts", 12⟩
    ⟨some "hello", "en", "hi", none, none⟩ "hello" "namaste" 1
    (by decide) rfl (Or.inl rfl)
  exact ⟨h.1, by rw [h.2]; decide⟩

/-- An environment whose backend fails with a non-OK response whose cause is a
server-side crash, not a rejection of the request payload. -/
def envCrash : Env := ⟨true, .httpError 500 "CUDA out of memory", "20261011", "ts", 10⟩

/-- C6 counterexample: a backend failure that is not a payload rejection (a
500-status response reporting a server-side crash) is surfaced as HTTP 400,
because the route rethrows every non-OK backend response under the
`Translation failed` prefix and the catch block maps that prefix to 400 — the
claim that only malformed/oversized-input rejections yield 400 and that any
other backend failure yields 500 is false. -/
theorem c6_counterexample :
    envCrash.backend = .httpError 500 "CUDA out of memory" ∧
    (translateHandler cfgDefault [] true envCrash reqHello).status = 400 ∧
    (translateHandler cfgDefault [] true envCrash reqHello).body =
      .errorBody "Translation failed: CUDA out of memory" := by
  decide

/-- A pattern that a string starts with is found by the substring scan. -/
theorem hasSubstring_self_append (pat tail : List Char) :
    hasSubstring (pat ++ tail) pat = true := by
  cases pat with
  | nil =>
    cases tail with
    | nil => rfl
    | cons c cs => simp [hasSubstring]
  | cons p pc =>
    rw [List.cons_append, hasSubstring]
    simp only [List.isPrefixOf_iff_prefix, Bool.or_eq_true]
    exact Or.inl ⟨tail, by simp⟩

/-- Every message rethrown for a non-OK backend response contains the
`Translation failed` marker the catch block looks for. -/
theorem translation_failed_marker (d : String) :
    hasSubstringS ("Translation failed: " ++ d) "Translation failed" = true := by
  unfold hasSubstringS
  rw [String.data_append]
  have h1 : "Translation failed: ".data = "Translation failed".data ++ [':', ' '] := by decide
  rw [h1, List.append_assoc]
  exact hasSubstring_self_append _ _

/-- C6 (amended): failures of the translate call are classified by the text
of the thrown error message, not by their cause — an error message containing
`timeout` (in particular the bounded-timeout abort) yields 504; otherwise any
non-OK backend HTTP response, whatever its status or cause, is rethrown with
the `Translation failed` prefix and yields 400 carrying the backend detail;
any other failure yields 500. -/
theorem translate_error_classes_c6 (cfg : ServerConfig) (dict : List DictEntry)
    (env : Env) (req : TranslateRequest) (trimmed : String)
    (hval : validateInput req.text cfg.maxTranslationLength = .valid trimmed) :
    (env.backend = .timeout → (translateHandler cfg dict true env req).status = 504) ∧
    (∀ s d, env.backend = .httpError s d →
      hasSubstringS ("Translation failed: " ++ d) "timeout" = false →
      (translateHandler cfg dict true env req).status = 400 ∧
      (translateHandler cfg dict true env req).body =
        .errorBody ("Translation failed: " ++ d)) ∧
    (∀ s d, env.backend = .httpError s d →
      hasSubstringS ("Translation failed: " ++ d) "timeout" = true →
      (translateHandler cfg dict true env req).status = 504) ∧
    (∀ m, env.backend = .fetchError m →
      hasSubstringS m "timeout" = false →
      hasSubstringS m "Translation failed" = false →
      (translateHandler cfg dict true env req).status = 500) := by
  refine ⟨?_, ?_, ?_, ?_⟩
  · intro h
    unfold translateHandler
    rw [hval, h]
    simp [classifyError, show hasSubstringS "network timeout at: /translate" "timeout" = true from by decide]
  · intro s d h hto
    unfold translateHandler
    rw [hval, h]
    have hm := translation_failed_marker d
    exact ⟨by simp [classifyError, hto, hm], by simp [classifyError, hto, hm]⟩
  · intro s d h hto
    unfold translateHandler
    rw [hval, h]
    simp [classifyError, hto]
  · intro m h hto htf
    unfold translateHandler
    rw [hval, h]
    simp [classifyError, hto, htf]

/-- Witness for C6 at a concrete timed-out call. -/
theorem c6_witness :
    (translateHandler cfgDefault [] true ⟨true, .timeout, "d", "ts", 0⟩ reqHello).status = 504 :=
  (translate_error_classes_c6 cfgDefault [] ⟨true, .timeout, "d", "ts", 0⟩ reqHello
    "hello" (by decide)).1 rfl

/-- An environment whose backend succeeds with a fixed translation. -/
def envOk : Env := ⟨true, .ok "namaste duniya" 1, "20261011", "ts", 12⟩

/-- A successful request carrying a reference equal to the output (score 1). -/
def reqRefA : TranslateRequest := ⟨some "hello", "en", "hi", some "namaste duniya", some "r1"⟩

/-- The same request with an unrelated reference (score 0). -/
def reqRefB : TranslateRequest := ⟨some "hello", "en", "hi", some "zzz", some "r1"⟩

/-- C9 counterexample: two successful calls that differ only in their
reference string produce different accuracy scores (the score reaches
`logTranslation` through its arguments, and here it is 2/2 for one call and
0/2 for the other), yet the persisted log entries of the two calls are
identical — the score is therefore not included in the logged record of the
call, refuting the last part of the claim. -/
theorem c9_counterexample :
    (translateHandler cfgDefault [] true envOk reqRefA).logs =
      (translateHandler cfgDefault [] true envOk reqRefB).logs ∧
    (translateHandler cfgDefault [] true envOk reqRefA).logArgs ≠
      (translateHandler cfgDefault [] true envOk reqRefB).logArgs ∧
    ((translateHandler cfgDefault [] true envOk reqRefA).logArgs.map
        (fun a => a.accuracy)) = some (some (2, 2)) ∧
    ((translateHandler cfgDefault [] true envOk reqRefB).logArgs.map
        (fun a => a.accuracy)) = some (some (0, 2)) ∧
    (translateHandler cfgDefault [] true envOk reqRefA).status = 200 ∧
    (translateHandler cfgDefault [] true envOk reqRefB).status = 200 := by
  decide

/-- C9 (amended): the accuracy score of a successful call with a reference
equals the number of lowercased whitespace-split reference words occurring in
the output divided by the larger of the two word counts (kept as the exact
fraction); the reference never affects the response status, body or persisted
logs; the score is passed to the logging routine but omitted from the
persisted log entry (the omission is shown in the counterexample). -/
theorem accuracy_scoring_c9 (cfg : ServerConfig) (dict : List DictEntry)
    (healthy : Bool) (env : Env) (req : TranslateRequest) :
    ((translateHandler cfg dict healthy env req).status =
       (translateHandler cfg dict healthy env { req with reference := none }).status ∧
     (translateHandler cfg dict healthy env req).body =
       (translateHandler cfg dict healthy env { req with reference := none }).body ∧
     (translateHandler cfg dict healthy env req).logs =
       (translateHandler cfg dict healthy env { req with reference := none }).logs) ∧
    (∀ trimmed outText n r,
      validateInput req.text cfg.maxTranslationLength = .valid trimmed →
      env.backend = .ok outText n →
      (healthy = true ∨ env.probeResult = true) →
      req.reference = some r → r ≠ "" →
      ∃ args, (translateHandler cfg dict healthy env req).logArgs = some args ∧
        args.accuracy = some
          (((splitWS (toLowerS r)).filter (fun w =>
              (splitWS (toLowerS (applyWordReplacements dict outText
                (headBeforeDash req.target)))).contains w)).length,
           max (splitWS (toLowerS r)).length
             (splitWS (toLowerS (applyWordReplacements dict outText
               (headBeforeDash req.target)))).length)) := by
  obtain ⟨t, src, tgt, rf, rid⟩ := req
  constructor
  · unfold translateHandler
    cases hv : validateInput t cfg.maxTranslationLength with
    | invalid e => exact ⟨rfl, rfl, rfl⟩
    | valid trimmed =>
      cases healthy with
      | true =>
        simp only [if_true]
        cases henv : env.backend with
        | ok outText n => simp [logTranslation]
        | httpError s d => exact ⟨rfl, rfl, rfl⟩
        | timeout => exact ⟨rfl, rfl, rfl⟩
        | fetchError m => exact ⟨rfl, rfl, rfl⟩
      | false =>
        cases hp : env.probeResult with
        | true =>
          simp only [if_false, hp, if_true, Bool.false_eq_true]
          cases henv : env.backend with
          | ok outText n => simp [logTranslation]
          | httpError s d => exact ⟨rfl, rfl, rfl⟩
          | timeout => exact ⟨rfl, rfl, rfl⟩
          | fetchError m => exact ⟨rfl, rfl, rfl⟩
        | false => exact ⟨rfl, rfl, rfl⟩
  · intro trimmed outText n r hval hok hhealth href hrne
    simp only at href hval hok
    subst href
    unfold translateHandler
    rw [hval, hok]
    have hbeq : (r == "") = false := by simpa using hrne
    cases healthy with
    | true =>
      simp only [if_true, hbeq, Bool.false_eq_true, if_false]
      exact ⟨_, rfl, by simp [calcAccuracyPair]⟩
    | false =>
      have hp : env.probeResult = true := by
        rcases hhealth with h | h
        · exact absurd h (by simp)
        · exact h
      simp only [if_false, hp, if_true, hbeq, Bool.false_eq_true]
      exact ⟨_, rfl, by simp [calcAccuracyPair]⟩

/-- Witness for C9 at a concrete successful call with a reference. -/
theorem c9_witness :
    ∃ args, (translateHandler cfgDefault [] true envOk reqRefA).logArgs = some args ∧
      args.accuracy = some
        (((splitWS (toLowerS "namaste duniya")).filter (fun w =>
            (splitWS (toLowerS (applyWordReplacements [] "namaste duniya"
              (headBeforeDash "hi")))).contains w)).length,
         max (splitWS (toLowerS "namaste duniya")).length
           (splitWS (toLowerS (applyWordReplacements [] "namaste duniya"
             (headBeforeDash "hi")))).length) :=
  (accuracy_scoring_c9 cfgDefault [] true envOk reqRefA).2
    "hello" "namaste duniya" 1 "namaste duniya" (by decide) rfl (Or.inl rfl) rfl
    (by decide)

/-- Replacing into the empty text leaves it empty. -/
theorem stepEntry_empty (lang : String) (e : DictEntry) : stepEntry lang "" e = "" := by
  unfold stepEntry
  cases h : (jsTrim ((objGet e lang).getD "")).data with
  | nil => simp [h]
  | cons p ps => simp [h, testBoundary, replaceLoose, replaceLooseAux]

/-- The whole pipeline on the empty text yields the empty text. -/
theorem foldl_stepEntry_empty (lang : String) (l : List DictEntry) :
    l.foldl (stepEntry lang) "" = "" := by
  induction l with
  | nil => rfl
  | cons e es ih => simpa [stepEntry_empty] using ih

/-- The post-processor is the fold of the per-entry replacement over the
filtered, sorted entry list. -/
theorem applyWordReplacements_eq_foldl (dict : List DictEntry) (text targetLang : String) :
    applyWordReplacements dict text targetLang =
      (sortedEntries targetLang dict).foldl (stepEntry targetLang) text := by
  unfold applyWordReplacements
  by_cases h : text = ""
  · simp [h, foldl_stepEntry_empty]
  · simp [h]

/-- Membership through the stable insertion. -/
theorem mem_insertEntry {lang : String} {e x : DictEntry} {l : List DictEntry}
    (h : x ∈ insertEntry lang e l) : x = e ∨ x ∈ l := by
  induction l with
  | nil => simpa [insertEntry] using h
  | cons y ys ih =>
    unfold insertEntry at h
    by_cases hk : entryKey lang e < entryKey lang y
    · rw [if_pos hk] at h
      rcases List.mem_cons.mp h with h | h
      · exact Or.inr (by simp [h])
      · rcases ih h with h | h
        · exact Or.inl h
        · exact Or.inr (by simp [h])
    · rw [if_neg hk] at h
      rcases List.mem_cons.mp h with h | h
      · exact Or.inl h
      · exact Or.inr h

/-- Membership through the stable sort. -/
theorem mem_sortEntriesDesc {lang : String} {x : DictEntry} {l : List DictEntry}
    (h : x ∈ sortEntriesDesc lang l) : x ∈ l := by
  induction l with
  | nil => simp [sortEntriesDesc] at h
  | cons y ys ih =>
    unfold sortEntriesDesc at h
    rcases mem_insertEntry h with h | h
    · simp [h]
    · exact List.mem_cons_of_mem _ (ih h)

/-- Stable insertion preserves the length-descending order. -/
theorem pairwise_insertEntry {lang : String} {e : DictEntry} {l : List DictEntry}
    (h : l.Pairwise (fun a b => entryKey lang b ≤ entryKey lang a)) :
    (insertEntry lang e l).Pairwise (fun a b => entryKey lang b ≤ entryKey lang a) := by
  induction l with
  | nil => simp [insertEntry]
  | cons y ys ih =>
    rcases List.pairwise_cons.mp h with ⟨hy, hys⟩
    unfold insertEntry
    by_cases hk : entryKey lang e < entryKey lang y
    · rw [if_pos hk]
      refine List.pairwise_cons.mpr ⟨?_, ih hys⟩
      intro z hz
      rcases mem_insertEntry hz with rfl | hz
      · exact Nat.le_of_lt hk
      · exact hy z hz
    · rw [if_neg hk]
      refine List.pairwise_cons.mpr ⟨?_, h⟩
      intro z hz
      rcases List.mem_cons.mp hz with rfl | hz
      · exact Nat.le_of_not_lt hk
      · exact Nat.le_trans (hy z hz) (Nat.le_of_not_lt hk)

/-- The sorted entry list is ordered by localized-form length descending. -/
theorem pairwise_sortEntriesDesc (lang : String) (l : List DictEntry) :
    (sortEntriesDesc lang l).Pairwise (fun a b => entryKey lang b ≤ entryKey lang a) := by
  induction l with
  | nil => simp [sortEntriesDesc]
  | cons y ys ih => exact pairwise_insertEntry ih

/-- Every entry the pipeline processes passed the validity filter. -/
theorem sortedEntries_valid {lang : String} {e : DictEntry} {dict : List DictEntry}
    (h : e ∈ sortedEntries lang dict) : validEntry lang e = true := by
  unfold sortedEntries at h
  exact (List.mem_filter.mp (mem_sortEntriesDesc h)).2

/-- Dictionary entry mapping localized `colour` to canonical `color`. -/
def eColor : DictEntry := [("en", "color"), ("fr", "colour")]

/-- Dictionary entry mapping localized `colourful` to canonical `colorful`. -/
def eColorful : DictEntry := [("en", "colorful"), ("fr", "colourful")]

/-- A longer entry whose localized form `abcd` contains the shorter one. -/
def eLong : DictEntry := [("en", "LONG"), ("fr", "abcd")]

/-- A shorter entry whose localized form `abc` is contained in `abcd`. -/
def eShort : DictEntry := [("en", "SHORT"), ("fr", "abc")]

/-- C3 counterexample: with the longer entry `abcd → LONG` and the shorter
contained entry `abc → SHORT`, the input `abcd xabcdy` contains the longer
entry's localized term twice, once whole-word and once embedded.  Because the
longer entry finds a whole-word match, only that occurrence is replaced; the
embedded occurrence survives and is then partially consumed by the shorter
entry's substring fallback, producing `LONG xSHORTdy` — the embedded
occurrence of the longer term was partially replaced by the shorter entry it
contains, refuting the final part of the claim. -/
theorem c3_counterexample :
    validEntry "fr" eLong = true ∧ validEntry "fr" eShort = true ∧
    entryKey "fr" eLong = 4 ∧ entryKey "fr" eShort = 3 ∧
    hasSubstringS "abcd" "abc" = true ∧
    hasSubstringS "abcd xabcdy" "abcd" = true ∧
    applyWordReplacements [eLong, eShort] "abcd xabcdy" "fr" = "LONG xSHORTdy" ∧
    hasSubstringS "LONG xSHORTdy" "SHORTd" = true := by
  decide

/-- C3 (amended): the post-processor folds the per-entry replacement (strict
whole-word first, substring fallback only when no whole-word match exists)
over exactly the entries with non-empty localized and English forms, in
localized-form length-descending order, and is deterministic — on the spec's
own example entries an input containing `colourful` is cleanly rewritten for
either insertion order.  (The stronger universal claim that an input
containing a longer entry's localized term is never partially replaced by a
shorter contained entry is false, as the counterexample shows: it can fail
for an embedded occurrence when the longer entry also has a whole-word
occurrence.) -/
theorem dictionary_pipeline_c3 :
    (∀ (dict : List DictEntry) (text targetLang : String),
      applyWordReplacements dict text targetLang =
        (sortedEntries targetLang dict).foldl (stepEntry targetLang) text) ∧
    (∀ (dict : List DictEntry) (targetLang : String) (e : DictEntry),
      e ∈ sortedEntries targetLang dict → validEntry targetLang e = true) ∧
    (∀ (dict : List DictEntry) (targetLang : String),
      (sortedEntries targetLang dict).Pairwise
        (fun a b => entryKey targetLang b ≤ entryKey targetLang a)) ∧
    applyWordReplacements [eColor, eColorful] "a colourful day" "fr" = "a colorful day" ∧
    applyWordReplacements [eColorful, eColor] "a colourful day" "fr" = "a colorful day" := by
  refine ⟨applyWordReplacements_eq_foldl,
    fun dict targetLang e h => sortedEntries_valid h,
    fun dict targetLang => pairwise_sortEntriesDesc targetLang _,
    by decide, by decide⟩

/-- Witness for C3: the filter fact of the amended theorem, instantiated at a
concrete dictionary and entry. -/
theorem c3_witness : validEntry "fr" eColorful = true :=
  dictionary_pipeline_c3.2.1 [eColor, eColorful] "fr" eColorful (by decide)

/-- The room-store invariant: every registered room has a non-empty id and at
most `cap` participants. -/
def roomsOK (cap : Nat) (rooms : List (String × Room)) : Prop :=
  ∀ p ∈ rooms, p.1 ≠ "" ∧ p.2.participants.length ≤ cap

/-- Room creation preserves the invariant. -/
theorem roomsOK_create {cap : Nat} {st : SocketState} (roomId lang : String)
    (h : roomsOK cap st.rooms) :
    roomsOK cap (createRoomHandler st roomId lang).1.rooms := by
  unfold createRoomHandler
  by_cases hid : roomId = ""
  · simpa [hid] using h
  · have hbeq : (roomId == "") = false := by simpa using hid
    cases hget : mapGet st.rooms roomId with
    | some r => simpa [hbeq, hget] using h
    | none =>
      simp only [hbeq, Bool.false_eq_true, if_false, hget]
      intro p hp
      rcases mem_mapSet hp with rfl | hp
      · exact ⟨hid, by simp⟩
      · exact h p hp

/-- Join preserves the invariant for any positive capacity. -/
theorem roomsOK_join {cap : Nat} (hcap : 1 ≤ cap) {st : SocketState}
    (sockId roomId : String) (opts : JoinOpts) (h : roomsOK cap st.rooms) :
    roomsOK cap (joinHandler cap st sockId roomId opts).1.rooms := by
  unfold joinHandler
  by_cases hid : roomId = ""
  · simpa [hid] using h
  · have hbeq : (roomId == "") = false := by simpa using hid
    cases hget : mapGet st.rooms roomId with
    | none =>
      cases hc : opts.isCreator with
      | false => simpa [hbeq, hget, hc] using h
      | true =>
        simp only [hbeq, Bool.false_eq_true, if_false, hget, hc, if_true]
        intro p hp
        rcases mem_mapSet hp with rfl | hp
        · exact ⟨hid, by simpa using hcap⟩
        · exact h p hp
    | some room =>
      by_cases hfull : cap ≤ room.participants.length
      · simpa [hbeq, hget, hfull] using h
      · simp only [hbeq, Bool.false_eq_true, if_false, hget, decide_eq_true_eq, hfull]
        intro p hp
        rcases mem_mapSet hp with rfl | hp
        · refine ⟨hid, ?_⟩
          simp only [List.length_append, List.length_cons, List.length_nil]
          omega
        · exact h p hp

/-- `handleLeave` preserves the invariant. -/
theorem roomsOK_handleLeave {cap : Nat} {st : SocketState} (sockId roomId : String)
    (h : roomsOK cap st.rooms) :
    roomsOK cap (handleLeave st sockId roomId).1.rooms := by
  unfold handleLeave
  cases hget : mapGet st.rooms roomId with
  | none => simpa [hget] using h
  | some room =>
    have hmem := h (roomId, room) (mapGet_eq_some_mem hget)
    have hlen : (room.participants.filter (fun id => !(id == sockId))).length ≤ cap :=
      Nat.le_trans (List.length_filter_le _ _) hmem.2
    by_cases hemp : (room.participants.filter (fun id => !(id == sockId))).isEmpty
    · simp only [hget, hemp, if_true]
      intro p hp
      rw [mapDelete_mapSet] at hp
      exact h p (mem_mapDelete hp)
    · simp only [hget, hemp, Bool.false_eq_true, if_false]
      intro p hp
      rcases mem_mapSet hp with rfl | hp
      · exact ⟨hmem.1, hlen⟩
      · exact h p hp

/-- The `leave` handler preserves the invariant. -/
theorem roomsOK_leaveHandler {cap : Nat} {st : SocketState} (sockId roomId : String)
    (h : roomsOK cap st.rooms) :
    roomsOK cap (leaveHandler st sockId roomId).1.rooms := by
  have h1 : roomsOK cap (handleLeave st sockId roomId).1.rooms :=
    roomsOK_handleLeave sockId roomId h
  unfold leaveHandler
  cases hget : mapGet (handleLeave st sockId roomId).1.rooms roomId with
  | none =>
    simp only [hget]
    intro p hp
    exact h1 p (mem_mapDelete hp)
  | some room =>
    by_cases hemp : room.participants.isEmpty
    · simp only [hget, hemp, if_true]
      intro p hp
      exact h1 p (mem_mapDelete hp)
    · simpa [hget, hemp] using h1

/-- Every reachable room store satisfies the invariant. -/
theorem reachable_roomsOK {cap : Nat} (hcap : 1 ≤ cap) {st : SocketState}
    (h : Reachable cap st) : roomsOK cap st.rooms := by
  induction h with
  | init => intro p hp; simp at hp
  | create st roomId lang _ ih => exact roomsOK_create roomId lang ih
  | join st sockId roomId opts _ ih => exact roomsOK_join hcap sockId roomId opts ih
  | leave st sockId roomId _ ih => exact roomsOK_leaveHandler sockId roomId ih
  | disconnectLeave st sockId roomId _ ih => exact roomsOK_handleLeave sockId roomId ih
  | transcriptOp rooms ts ts' _ ih => exact ih

/-- C1: in every reachable state of the room store (capacity at least one,
default two), no room ever holds more than `cap` participants, and a join
attempt on a room already at capacity answers `full` to the joiner and
returns the state unchanged — no participants, visibility or language change
and nothing else is emitted. -/
theorem roomstore_capacity_c1 (cap : Nat) (hcap : 1 ≤ cap) (st : SocketState)
    (hst : Reachable cap st) :
    (∀ p ∈ st.rooms, p.2.participants.length ≤ cap) ∧
    (∀ roomId sockId opts room, mapGet st.rooms roomId = some room →
      cap ≤ room.participants.length →
      joinHandler cap st sockId roomId opts = (st, [Effect.emitSelf "full" roomId])) := by
  have hOK := reachable_roomsOK hcap hst
  refine ⟨fun p hp => (hOK p hp).2, ?_⟩
  intro roomId sockId opts room hget hfull
  have hid : roomId ≠ "" := (hOK (roomId, room) (mapGet_eq_some_mem hget)).1
  have hbeq : (roomId == "") = false := by simpa using hid
  unfold joinHandler
  simp [hbeq, hget, hfull]

/-- The state after one creator joined room `r`. -/
def stOne : SocketState := (joinHandler 2 ⟨[], []⟩ "a" "r" ⟨true, none⟩).1

/-- The state after a second participant joined room `r`: the room is full. -/
def stFull : SocketState := (joinHandler 2 stOne "b" "r" ⟨false, none⟩).1

/-- Witness for C1: in the concrete reachable state with a full two-party
room, a third join attempt yields `full` and changes nothing. -/
theorem c1_witness :
    joinHandler 2 stFull "c" "r" ⟨false, none⟩ = (stFull, [Effect.emitSelf "full" "r"]) :=
  (roomstore_capacity_c1 2 (by decide) stFull
    (Reachable.join stOne "b" "r" ⟨false, none⟩
      (Reachable.join ⟨[], []⟩ "a" "r" ⟨true, none⟩ Reachable.init))).2
    "r" "c" ⟨false, none⟩ ⟨["a", "b"], true, none⟩ (by decide) (by decide)

end Linguera
